import Mathlib

/-!
Verification of the interactive core of the launcher panel: ranking and
filtering of catalog entries, selection movement, scroll-window arithmetic,
theme color parsing, the icon cache, and the executor front end.

Shallow embedding conventions:
- Rust usize/u32/i32/i64 arithmetic is modelled with Nat and Int; saturating
  subtraction on usize corresponds to truncated Nat subtraction, and
  i32::rem_euclid corresponds to Int.emod (both are Euclidean).
- HashMap String V is modelled as an association list queried with
  List.lookup (newest insertion first), or, where only reads with a default
  occur, directly as a function from String.
- Vec::sort_by guarantees a stable sort ordered by the comparator; it is
  modelled by Mathlib's stable List.insertionSort with the non-strict
  relation induced by the comparator (all stable sorts with the same
  total-preorder comparator agree extensionally).
- Rust String comparison (Ord::cmp) is byte-lexicographic, which by the
  order-embedding property of UTF-8 is code-point lexicographic order; it
  is modelled by a structural three-way comparison of character lists.
- External collaborators (the nucleo fuzzy scorer, compiled regexes, the
  filesystem side of the icon loader) enter as function parameters.
-/

namespace Runner

/-! ## Generic comparison helpers -/

/-- The Ordering produced by Ord::cmp of a linear order (Rust derive-style
three-way comparison). -/
def linCmp {α : Type} [LinearOrder α] (a b : α) : Ordering :=
  if a < b then .lt else if b < a then .gt else .eq

/-- Lexicographic three-way comparison of character lists. -/
def charListCmp : List Char → List Char → Ordering
  | [], [] => .eq
  | [], _ :: _ => .lt
  | _ :: _, [] => .gt
  | a :: as, b :: bs =>
    if a < b then .lt else if b < a then .gt else charListCmp as bs

/-- Rust Ord::cmp on String is byte-lexicographic; by the order-embedding
property of UTF-8 this coincides with code-point lexicographic order,
modelled over the character list. -/
def strCmp (a b : String) : Ordering :=
  charListCmp a.toList b.toList

/-! ## Data model (src/model.rs) -/

/-- Source kind of a catalog entry (enum EntryType in src/model.rs). -/
inductive EntryType where
  | desktop
  | binary
  | history
  | custom
deriving DecidableEq

/-- A catalog entry (struct Entry in src/model.rs). The i64 score is
modelled as Int. -/
structure Entry where
  id : String
  name : String
  command : String
  icon : Option String
  score : Int
  group : String
  isContainer : Bool
  openInTerminal : Bool
  entryType : EntryType
deriving DecidableEq

def defaultEntry : Entry :=
  { id := "", name := "", command := "", icon := none, score := 0,
    group := "", isContainer := false, openInTerminal := false,
    entryType := .custom }

/-- Indexing self.entries[i]; in the code every such access is in bounds. -/
def getEntry (entries : List Entry) (i : Nat) : Entry :=
  (entries[i]?).getD defaultEntry

/-! ## Scroll-window arithmetic (src/ui/render.rs lines 62-73 and
src/ui/wayland.rs lines 285-296; the two computations are textually
identical). -/

/-- The three-branch scroll offset computed in Renderer::draw and in the
digit branch of WaylandApp::press_key. Both usize subtractions taken by
the code are in range, so truncated Nat subtraction agrees with them;
saturating_sub is truncated subtraction by definition. -/
def scroll_offset (total visible cursor : Nat) : Nat :=
  if total ≤ visible then 0
  else if cursor < visible / 2 then 0
  else if total - visible / 2 ≤ cursor then total - visible
  else cursor - visible / 2

/-- Modelled from the spec (section 4.3 step 4): the window start is
clamp(cursor - capacity/2, 0, total - capacity) with integer floor
division, and 0 when total fits the capacity. -/
def specWindowStart (total visible cursor : Nat) : Int :=
  if total ≤ visible then 0
  else min ((total : Int) - (visible : Int)) (max 0 ((cursor : Int) - (visible : Int) / 2))

/-! ## Selection movement (src/state.rs lines 233-251) -/

/-- AppState::move_selection restricted to the data it touches: the
filtered view and the cursor. rem_euclid on i32 is Euclidean modulus,
i.e. Int.emod. -/
def move_selection (filtered : List Nat) (cursor : Nat) (delta : Int) : Nat :=
  if filtered.isEmpty then 0
  else (((cursor : Int) + delta).emod (filtered.length : Int)).toNat

/-! ## Digit-key dispatch (src/ui/wayland.rs lines 275-304) -/

/-- The digit branch of WaylandApp::press_key. digit is the pressed digit
(1..9), so index_offset = digit - 1; visible is the visible row capacity
(height - list_start_y - padding) / item_height computed identically in
Renderer::draw. Returns the executed catalog index (filtered[target], if
any) and the resulting should_exit flag. -/
def digit_press (filtered : List Nat) (visible cursor digit : Nat) :
    Option Nat × Bool :=
  let index_offset := digit - 1
  let target := scroll_offset filtered.length visible cursor + index_offset
  match filtered[target]? with
  | some idx => (some idx, true)
  | none => (none, false)

/-! ## Theme color parsing (src/config.rs lines 144-157) -/

/-- An 8-bit RGBA color (tiny_skia Color produced via Color::from_rgba8;
Color::BLACK is r = 0, g = 0, b = 0, a = 255). -/
structure ColorRGBA where
  r : Nat
  g : Nat
  b : Nat
  a : Nat
deriving DecidableEq

/-- UTF-8 encoding of one character, as byte values below 256. -/
def utf8Bytes (c : Char) : List Nat :=
  if c.toNat < 128 then [c.toNat]
  else if c.toNat < 2048 then
    [192 + c.toNat / 64, 128 + c.toNat % 64]
  else if c.toNat < 65536 then
    [224 + c.toNat / 4096, 128 + c.toNat / 64 % 64, 128 + c.toNat % 64]
  else
    [240 + c.toNat / 262144, 128 + c.toNat / 4096 % 64,
     128 + c.toNat / 64 % 64, 128 + c.toNat % 64]

/-- The UTF-8 byte sequence of a character list, as Rust str stores it. -/
def utf8Enc (l : List Char) : List Nat :=
  (l.map utf8Bytes).flatten

/-- Whether byte offset i of the UTF-8 encoding of l is a character
boundary; Rust string slicing panics at a non-boundary offset. -/
def isCharBoundary : List Char → Nat → Bool
  | _, 0 => true
  | [], _ + 1 => false
  | c :: cs, i + 1 =>
    if i + 1 < (utf8Bytes c).length then false
    else isCharBoundary cs (i + 1 - (utf8Bytes c).length)

/-- Value of a single ASCII hexadecimal-digit byte, upper or lower case. -/
def hexDigitByteVal (b : Nat) : Option Nat :=
  if 48 ≤ b ∧ b ≤ 57 then some (b - 48)
  else if 97 ≤ b ∧ b ≤ 102 then some (b - 97 + 10)
  else if 65 ≤ b ∧ b ≤ 70 then some (b - 65 + 10)
  else none

/-- u8::from_str_radix with radix 16 applied to a two-byte str slice: an
optional leading plus sign (byte 43) is accepted, otherwise both bytes
must be ASCII hex digits (two hex digits always fit in u8; bytes of a
multi-byte character are at least 128 and therefore never parse). -/
def fromStrRadix2 (b1 b2 : Nat) : Option Nat :=
  if b1 = 43 then hexDigitByteVal b2
  else
    match hexDigitByteVal b1, hexDigitByteVal b2 with
    | some h, some l => some (16 * h + l)
    | _, _ => none

/-- hex.trim_start_matches of the '#' character: removes every leading
occurrence of the pattern character, viewed as a character list; since
'#' is ASCII, this is also the byte-level trim. -/
def trimHash (hex : String) : List Char :=
  hex.toList.dropWhile (· = '#')

/-- ThemeConfig::parse_color at the UTF-8 byte level: the length guard
checks hex.len(), the byte length of the trimmed string, and the four
components are the two-byte slices at offsets 0, 2, 4 and 6. Rust string
slicing panics when an offset 2, 4 or 6 falls inside a multi-byte
character; the model returns none there (offsets 0 and 8 are always
boundaries of an 8-byte string). -/
def parse_color (hex : String) : Option ColorRGBA :=
  if (utf8Enc (trimHash hex)).length ≠ 8 then some { r := 0, g := 0, b := 0, a := 255 }
  else if isCharBoundary (trimHash hex) 2 && isCharBoundary (trimHash hex) 4 &&
      isCharBoundary (trimHash hex) 6 then
    some
      { r := (fromStrRadix2 ((utf8Enc (trimHash hex)).getD 0 0)
          ((utf8Enc (trimHash hex)).getD 1 0)).getD 0
        g := (fromStrRadix2 ((utf8Enc (trimHash hex)).getD 2 0)
          ((utf8Enc (trimHash hex)).getD 3 0)).getD 0
        b := (fromStrRadix2 ((utf8Enc (trimHash hex)).getD 4 0)
          ((utf8Enc (trimHash hex)).getD 5 0)).getD 0
        a := (fromStrRadix2 ((utf8Enc (trimHash hex)).getD 6 0)
          ((utf8Enc (trimHash hex)).getD 7 0)).getD 255 }
  else none

/-! ## Ranking and filtering (src/state.rs lines 77-229, src/matcher.rs) -/

/-- Launch-group policy fields consumed by update_filter and the executor
(struct LaunchGroup in src/config.rs). -/
structure LaunchGroup where
  env : Option (List (String × String))
  blacklist : Option (List String)
  whitelist : Option (List String)

/-- Rust str::contains with a string pattern: substring containment,
expressed over the character list. -/
def strContains (s pat : String) : Bool :=
  (List.range (s.toList.length + 1)).any fun i => pat.toList.isPrefixOf (s.toList.drop i)

/-- Vec::sort_by guarantees a stable sort ordered by the comparator; it
is modelled by Mathlib's stable insertion sort with the non-strict
relation (cmp a b ≠ Greater) induced by the comparator. -/
def sortBy (cmp : Nat → Nat → Ordering) (l : List Nat) : List Nat :=
  l.insertionSort fun a b => cmp a b ≠ .gt

/-- Comparator of the empty-query branch of AppState::update_filter
(lines 93-105): usage count descending, then display name ascending;
usage is usage_counts.get(id).unwrap_or(0) as a function. -/
def emptyQueryCmp (entries : List Entry) (usage : String → Nat) (a b : Nat) : Ordering :=
  (linCmp (usage (getEntry entries b).id) (usage (getEntry entries a).id)).then
    (strCmp (getEntry entries a).name (getEntry entries b).name)

/-- The empty-query sort key spelled out: strictly more usage, or equal
usage and a name that is not lexicographically greater. -/
def emptyKeyLE (entries : List Entry) (usage : String → Nat) (a b : Nat) : Prop :=
  usage (getEntry entries b).id < usage (getEntry entries a).id ∨
    (usage (getEntry entries a).id = usage (getEntry entries b).id ∧
      strCmp (getEntry entries a).name (getEntry entries b).name ≠ .gt)

/-- The empty-query branch (lines 83-107): all catalog indices, stably
sorted by the empty-query comparator. -/
def rankEmptyQuery (entries : List Entry) (usage : String → Nat) : List Nat :=
  sortBy (emptyQueryCmp entries usage) (List.range entries.length)

/-- FuzzyMatcher::match_entries (src/matcher.rs lines 21-40): sets every
entry's score to the pattern score (u32 cast to i64) or to -1 on no
match. The external nucleo_matcher scorer is the parameter ms. -/
def match_entries (ms : String → String → Option Nat) (query : String)
    (entries : List Entry) : List Entry :=
  entries.map fun e =>
    match ms query e.name with
    | some s => { e with score := (s : Int) }
    | none => { e with score := -1 }

/-- The history boost loop (lines 119-129): adds usage * 100 to every
entry whose score is positive. -/
def boostEntries (usage : String → Nat) (entries : List Entry) : List Entry :=
  entries.map fun e =>
    if 0 < e.score then { e with score := e.score + (usage e.id : Int) * 100 } else e

/-- The composite per-entry score after a ranking pass: the fuzzy score
when it matches (-1 otherwise) plus the history boost exactly when the
fuzzy score is positive. -/
def finalScore (ms : String → String → Option Nat) (query : String)
    (usage : String → Nat) (e : Entry) : Int :=
  match ms query e.name with
  | some s => if 0 < (s : Int) then (s : Int) + (usage e.id : Int) * 100 else (s : Int)
  | none => -1

/-- Comparator of the query branch (lines 147-151): score descending. -/
def queryCmp (entries : List Entry) (a b : Nat) : Ordering :=
  linCmp (getEntry entries b).score (getEntry entries a).score

/-- The non-empty-query branch of update_filter (lines 109-155): rescore
the catalog in place, apply the history boost, keep the indices of
positively scored entries (in catalog order) and sort them by score
descending. Returns the rescored catalog and the index list. -/
def rankQuery (ms : String → String → Option Nat) (query : String)
    (usage : String → Nat) (entries : List Entry) : List Entry × List Nat :=
  let scored := boostEntries usage (match_entries ms query entries)
  let indices := (List.range scored.length).filter fun i => 0 < (getEntry scored i).score
  (scored, sortBy (queryCmp scored) indices)

/-- Whitelist failure (lines 187-196): a whitelist exists and neither the
name nor the id contains any whitelist substring. -/
def wlFail (wl : Option (List String)) (e : Entry) : Bool :=
  match wl with
  | some whitelist => ! whitelist.any fun w => strContains e.name w || strContains e.id w
  | none => false

/-- Blacklist hit (lines 201-207): the compiled regex list is non-empty
and some regex matches the name or the id. Compiled regexes are modelled
as Boolean match functions. -/
def blHit (regexes : List (String → Bool)) (e : Entry) : Bool :=
  !regexes.isEmpty && regexes.any fun re => re e.name || re e.id

/-- The per-row removal decision of the pruning loop: the whitelist check
runs first and short-circuits (continue) before the blacklist check. -/
def entryRemove (wl : Option (List String)) (regexes : List (String → Bool))
    (e : Entry) : Bool :=
  if wlFail wl e then true else blHit regexes e

/-- Positions (into the filtered list) pushed onto to_remove by the loop
at lines 179-209, starting at position i. -/
def markRemove {α : Type} (remove : α → Bool) : List α → Nat → List Nat
  | [], _ => []
  | x :: xs, i =>
    if remove x then i :: markRemove remove xs (i + 1) else markRemove remove xs (i + 1)

/-- Removal of the marked positions in reverse order (lines 215-219):
Vec::remove is eraseIdx, and the reversed iteration erases the largest
position first, which foldr does innermost. -/
def eraseMarks {α : Type} (l : List α) (marks : List Nat) : List α :=
  marks.foldr (fun i acc => acc.eraseIdx i) l

/-- The whole pruning pass of update_filter over the filtered index list
(lines 163-221). -/
def pruneFiltered (wl : Option (List String)) (regexes : List (String → Bool))
    (entries : List Entry) (filtered : List Nat) : List Nat :=
  eraseMarks filtered
    (markRemove (fun idx => entryRemove wl regexes (getEntry entries idx)) filtered 0)

/-- The fields of AppState read and written by update_filter. -/
structure RankState where
  entries : List Entry
  filteredIndices : List Nat
  selectedIndex : Nat
  query : String

/-- AppState::update_filter (lines 77-229). ms is the external fuzzy
scorer, compileOk is Regex::new(p).ok() for blacklist patterns (none on
a malformed pattern, which filterMap then skips), usage is the loaded
usage history, gc is config.groups.get(active_group). -/
def update_filter (ms : String → String → Option Nat)
    (compileOk : String → Option (String → Bool)) (usage : String → Nat)
    (gc : Option LaunchGroup) (s : RankState) : RankState :=
  let ranked :=
    if s.query = "" then (s.entries, rankEmptyQuery s.entries usage)
    else rankQuery ms s.query usage s.entries
  let indices :=
    match gc with
    | some g =>
      pruneFiltered g.whitelist ((g.blacklist.getD []).filterMap compileOk) ranked.1 ranked.2
    | none => ranked.2
  { s with entries := ranked.1, filteredIndices := indices, selectedIndex := 0 }

/-- AppState::update_query (lines 67-73): replace the query, then
recompute the filter. -/
def update_query (ms : String → String → Option Nat)
    (compileOk : String → Option (String → Bool)) (usage : String → Nat)
    (gc : Option LaunchGroup) (query : String) (s : RankState) : RankState :=
  update_filter ms compileOk usage gc { s with query := query }

/-- The catalog of the spec scenarios: Alpha with id a, Beta with id b. -/
def demoEntries : List Entry :=
  [{ defaultEntry with id := "a", name := "Alpha" },
   { defaultEntry with id := "b", name := "Beta" }]

/-- The usage history of the spec scenarios: a used 2 times, b used 5. -/
def demoUsage : String → Nat :=
  fun id => if id = "a" then 2 else if id = "b" then 5 else 0

/-- A catalog with two entries that compare equal under the empty-query
key (same name, ids with equal usage), to exercise sort stability. -/
def demoDupEntries : List Entry :=
  [{ defaultEntry with id := "x", name := "Same" },
   { defaultEntry with id := "y", name := "Same" }]

/-- A fuzzy scorer for witnesses: Alpha scores 10, everything else fails. -/
def demoMatcher : String → String → Option Nat :=
  fun _ name => if name = "Alpha" then some 10 else none

/-! ## Icon cache (src/ui/icons.rs lines 9-61) -/

/-- The interactive-thread state of IconCache: cache is the
HashMap String -> Option Pixmap (association list, newest first), pending
the HashSet String. The bitmap type is abstract. -/
structure IconCacheState (β : Type) where
  cache : List (String × Option β)
  pending : List String

/-- IconCache::get (lines 44-55): a cache hit returns the stored value
(present or absent) without changing anything; otherwise, unless a load
for the name is already pending, the name is marked pending and exactly
one job (name, size) is sent to the request channel. Returns (returned
bitmap, new state, jobs sent). -/
def IconCacheState.get {β : Type} (s : IconCacheState β) (name : String) (size : Nat) :
    Option β × IconCacheState β × List (String × Nat) :=
  match s.cache.lookup name with
  | some cached => (cached, s, [])
  | none =>
    if s.pending.contains name then (none, s, [])
    else (none, { s with pending := name :: s.pending }, [(name, size)])

/-- IconCache::insert (lines 57-60), the deliver operation: store the
result (present or absent) and clear the pending marker. -/
def IconCacheState.insert {β : Type} (s : IconCacheState β) (name : String)
    (pix : Option β) : IconCacheState β :=
  { cache := (name, pix) :: s.cache, pending := s.pending.erase name }

/-- A sequence of get calls with no intervening insert, accumulating
every job sent to the loader channel. -/
def processRequests {β : Type} (s : IconCacheState β) :
    List (String × Nat) → IconCacheState β × List (String × Nat)
  | [] => (s, [])
  | (n, size) :: rest =>
    let r := s.get n size
    let r2 := processRequests r.2.1 rest
    (r2.1, r.2.2 ++ r2.2)

/-! ## Executor (src/executor.rs lines 7-48) -/

/-- The GeneralConfig field used by the executor. -/
structure GeneralConfig where
  terminal : Option String

/-- The Config fields used by the executor; groups is the HashMap read. -/
structure Config where
  general : GeneralConfig
  groups : String → Option LaunchGroup

/-- str::split_whitespace tokenization: maximal non-empty runs of
non-whitespace characters, as character lists (accumulator in reverse). -/
def splitWhitespaceAux : List Char → List Char → List (List Char)
  | [], acc => if acc = [] then [] else [acc.reverse]
  | c :: cs, acc =>
    if c.isWhitespace then
      if acc = [] then splitWhitespaceAux cs []
      else acc.reverse :: splitWhitespaceAux cs []
    else splitWhitespaceAux cs (c :: acc)

/-- str::split_whitespace of a string: never yields empty tokens. -/
def splitWhitespace (s : String) : List String :=
  (splitWhitespaceAux s.toList []).map List.asString

/-- The observable actions of executor::execute, in program order. -/
inductive ExecAction where
  | incrementUsage (id : String)
  | spawn (prog : String) (args : List String) (env : List (String × String))
deriving DecidableEq

/-- executor::execute. Returns the ordered action list and whether the
early Ok(()) return was taken because the command line had no tokens; on
the spawn path the Rust result is that of Command::spawn, external to
this model and represented by the emitted spawn action. The result of
history::increment_usage is discarded by the code (let _ = ...). -/
def execute (entry : Entry) (config : Config) (activeGroup : String) :
    List ExecAction × Bool :=
  let cmd_parts :=
    if entry.openInTerminal then
      match config.general.terminal with
      | some term => splitWhitespace term ++ [entry.command]
      | none => splitWhitespace entry.command
    else splitWhitespace entry.command
  if cmd_parts = [] then ([.incrementUsage entry.id], true)
  else
    let env :=
      match config.groups activeGroup with
      | some g => g.env.getD []
      | none => []
    ([.incrementUsage entry.id, .spawn (cmd_parts.headD "") cmd_parts.tail env], false)

/-- The entry and configuration of the empty-command witness. -/
def demoEntryEmptyCmd : Entry :=
  { defaultEntry with id := "e", command := "  " }

def demoConfig : Config :=
  { general := { terminal := none }, groups := fun _ => none }

/-- An engine state with a non-empty query, for the witnesses. -/
def demoState : RankState :=
  { entries := demoEntries, filteredIndices := [], selectedIndex := 0, query := "alp" }

/-! # Theorems -/

/-! ## Comparison helpers -/

theorem linCmp_eq_lt {α : Type} [LinearOrder α] {a b : α} :
    linCmp a b = .lt ↔ a < b := by
  unfold linCmp
  split_ifs with h1 h2 <;> simp_all

theorem linCmp_eq_gt {α : Type} [LinearOrder α] {a b : α} :
    linCmp a b = .gt ↔ b < a := by
  unfold linCmp
  split_ifs with h1 h2 <;> simp_all
  exact le_of_lt h1

theorem linCmp_eq_eq {α : Type} [LinearOrder α] {a b : α} :
    linCmp a b = .eq ↔ a = b := by
  unfold linCmp
  split_ifs with h1 h2
  · simp only [reduceCtorEq, false_iff]
    exact ne_of_lt h1
  · simp only [reduceCtorEq, false_iff]
    exact (ne_of_lt h2).symm
  · simp only [true_iff]
    exact le_antisymm (not_lt.mp h2) (not_lt.mp h1)

theorem linCmp_ne_gt {α : Type} [LinearOrder α] {a b : α} :
    linCmp a b ≠ .gt ↔ a ≤ b := by
  rw [Ne, linCmp_eq_gt, not_lt]

theorem charListCmp_eq_eq : ∀ (a b : List Char), charListCmp a b = .eq ↔ a = b
  | [], [] => by simp [charListCmp]
  | [], _ :: _ => by simp [charListCmp]
  | _ :: _, [] => by simp [charListCmp]
  | a :: as, b :: bs => by
    unfold charListCmp
    split_ifs with h1 h2
    · constructor
      · intro h
        exact absurd h (by decide)
      · intro h
        injection h with hab _
        exact absurd hab (ne_of_lt h1)
    · constructor
      · intro h
        exact absurd h (by decide)
      · intro h
        injection h with hab _
        exact absurd hab.symm (ne_of_lt h2)
    · have hab : a = b := le_antisymm (not_lt.mp h2) (not_lt.mp h1)
      rw [charListCmp_eq_eq as bs]
      constructor
      · intro h
        rw [hab, h]
      · intro h
        injection h

theorem charListCmp_gt_iff :
    ∀ (a b : List Char), charListCmp a b = .gt ↔ charListCmp b a = .lt
  | [], [] => by simp [charListCmp]
  | [], _ :: _ => by simp [charListCmp]
  | _ :: _, [] => by simp [charListCmp]
  | a :: as, b :: bs => by
    rcases lt_trichotomy a b with h | h | h
    · rw [charListCmp, charListCmp, if_pos h, if_neg (asymm h), if_pos h]
      decide
    · subst h
      rw [charListCmp, charListCmp, if_neg (lt_irrefl a), if_neg (lt_irrefl a),
        if_neg (lt_irrefl a), if_neg (lt_irrefl a)]
      exact charListCmp_gt_iff as bs
    · rw [charListCmp, charListCmp, if_neg (asymm h), if_pos h, if_pos h]
      decide

theorem charListCmp_le_trans :
    ∀ (a b c : List Char), charListCmp a b ≠ .gt → charListCmp b c ≠ .gt →
      charListCmp a c ≠ .gt
  | [], _, [], _, _ => by rw [charListCmp]; decide
  | [], _, _ :: _, _, _ => by rw [charListCmp]; decide
  | _ :: _, [], _, h1, _ => absurd (by rw [charListCmp]) h1
  | _ :: _, _ :: _, [], _, h2 => absurd (by rw [charListCmp]) h2
  | x :: xs, y :: ys, z :: zs, h1, h2 => by
    have hxy : ¬ y < x := fun hc => h1 (by rw [charListCmp, if_neg (asymm hc), if_pos hc])
    have hyz : ¬ z < y := fun hc => h2 (by rw [charListCmp, if_neg (asymm hc), if_pos hc])
    rcases lt_trichotomy x z with h | h | h
    · rw [charListCmp, if_pos h]
      decide
    · subst h
      have hxeqy : x = y := le_antisymm (not_lt.mp hxy) (not_lt.mp hyz)
      subst hxeqy
      rw [charListCmp, if_neg (lt_irrefl x), if_neg (lt_irrefl x)]
      rw [charListCmp, if_neg (lt_irrefl x), if_neg (lt_irrefl x)] at h1 h2
      exact charListCmp_le_trans xs ys zs h1 h2
    · exact absurd (lt_of_lt_of_le h (le_trans (not_lt.mp hxy) (not_lt.mp hyz))) (lt_irrefl z)

theorem charListCmp_le_total (a b : List Char) :
    charListCmp a b ≠ .gt ∨ charListCmp b a ≠ .gt := by
  by_cases h : charListCmp a b = .gt
  · right
    rw [(charListCmp_gt_iff a b).mp h]
    decide
  · exact Or.inl h

theorem strCmp_self_ne_gt (s : String) : strCmp s s ≠ .gt := by
  unfold strCmp
  rw [(charListCmp_eq_eq _ _).mpr rfl]
  decide

/-! ## The scroll window (C3) -/

/-- C3: for every total item count, visible capacity, and cursor in
[0, total), the three-branch scroll offset of the code equals the spec
formula: 0 when the view fits, and otherwise
clamp(cursor - capacity/2, 0, total - capacity) with floor division. -/
theorem scroll_offset_eq_spec (total visible cursor : Nat)
    (hcur : cursor < total) :
    (scroll_offset total visible cursor : Int) =
      specWindowStart total visible cursor := by
  unfold scroll_offset specWindowStart
  have hdiv : ((visible / 2 : Nat) : Int) = (visible : Int) / 2 :=
    Int.ofNat_ediv visible 2
  rw [← hdiv]
  simp only [min_def, max_def]
  split_ifs <;> omega

/-- Witness for C3 at total = 10, visible = 4, cursor = 7. -/
theorem scroll_offset_eq_spec_witness :
    (7 : Nat) < 10 ∧ (scroll_offset 10 4 7 : Int) = specWindowStart 10 4 7 :=
  ⟨by decide, scroll_offset_eq_spec 10 4 7 (by decide)⟩

/-! ## Selection movement (C4) -/

/-- C4: move_selection is total: with an empty view the cursor is 0;
otherwise the new cursor is the Euclidean (floored, non-negative) modulus
of (cursor + delta) by the view length, hence always in [0, len). -/
theorem move_selection_total (filtered : List Nat) (cursor : Nat) (delta : Int) :
    (filtered = [] → move_selection filtered cursor delta = 0) ∧
    (filtered ≠ [] →
      (move_selection filtered cursor delta : Int) =
          ((cursor : Int) + delta).emod (filtered.length : Int) ∧
      move_selection filtered cursor delta < filtered.length) := by
  constructor
  · intro h
    simp [move_selection, h]
  · intro h
    have hlen : 0 < filtered.length := List.length_pos.mpr h
    have hne : (filtered.length : Int) ≠ 0 := by omega
    have hnonneg : 0 ≤ ((cursor : Int) + delta).emod (filtered.length : Int) :=
      Int.emod_nonneg _ hne
    have hltm : ((cursor : Int) + delta).emod (filtered.length : Int) < (filtered.length : Int) :=
      Int.emod_lt_of_pos _ (by exact_mod_cast hlen)
    unfold move_selection
    rw [if_neg (by simpa [List.isEmpty_iff] using h)]
    constructor
    · exact Int.toNat_of_nonneg hnonneg
    · omega

/-- Witness for C4: the spec scenario at view length 3, cursor 0,
delta -1 yields cursor 2 by wrapping to the tail. -/
theorem move_selection_total_witness :
    ((move_selection [4, 5, 6] 0 (-1) : Int) = ((0 : Int) + (-1)).emod 3 ∧
      move_selection [4, 5, 6] 0 (-1) < 3) ∧
    move_selection [4, 5, 6] 0 (-1) = 2 := by
  constructor
  · have h := (move_selection_total [4, 5, 6] 0 (-1)).2 (by decide)
    simpa using h
  · decide

/-! ## The digit-key dispatch (C1) -/

/-- C1 counterexample: with 20 filtered rows, a visible capacity of only 2
rows, cursor 0 and digit 9, the window starts at 0 and ordinal row 9 lies
far beyond the visible capacity, yet the code executes the row at index 8
and sets should_exit: the key press is not a no-op, refuting the
visible-capacity half of the claimed iff. -/
theorem digit_press_ignores_capacity :
    digit_press (List.range 20) 2 0 9 = (some 8, true) ∧ ¬ (9 - 1 < 2) := by
  constructor
  · decide
  · decide

/-- C1 amended: when a digit d in 1..9 is pressed, the code computes the
pagination window and executes (then terminates) if and only if the
Filtered View has a row at window-start + (d-1) — with no check that the
ordinal lies within the visible row capacity. -/
theorem digit_press_executes_iff_row_exists (filtered : List Nat)
    (visible cursor digit : Nat) (h1 : 1 ≤ digit) (h9 : digit ≤ 9) :
    (digit_press filtered visible cursor digit).1 =
      filtered[scroll_offset filtered.length visible cursor + (digit - 1)]? ∧
    ((digit_press filtered visible cursor digit).2 = true ↔
      scroll_offset filtered.length visible cursor + (digit - 1) < filtered.length) := by
  unfold digit_press
  cases hget : filtered[scroll_offset filtered.length visible cursor + (digit - 1)]? with
  | none =>
    simp only [hget]
    refine ⟨by trivial, ?_⟩
    simp only [Bool.false_eq_true, false_iff]
    intro hlt
    rw [List.getElem?_eq_getElem hlt] at hget
    exact absurd hget (by simp)
  | some idx =>
    simp only [hget]
    refine ⟨by trivial, ?_⟩
    have hlt : scroll_offset filtered.length visible cursor + (digit - 1) < filtered.length :=
      (List.getElem?_eq_some.mp hget).1
    simp [hlt]

/-- Witness for C1 amended at a concrete state: 3 filtered rows, capacity
5, cursor 0, digit 2. -/
theorem digit_press_executes_iff_row_exists_witness :
    (digit_press [7, 8, 9] 5 0 2).1 = [7, 8, 9][scroll_offset 3 5 0 + (2 - 1)]? ∧
    ((digit_press [7, 8, 9] 5 0 2).2 = true ↔ scroll_offset 3 5 0 + (2 - 1) < 3) := by
  have h := digit_press_executes_iff_row_exists [7, 8, 9] 5 0 2 (by decide) (by decide)
  simpa using h

/-! ## Theme color parsing (C2) -/

theorem fromStrRadix2_none {b1 b2 : Nat} (h1 : hexDigitByteVal b1 = none)
    (h2 : hexDigitByteVal b2 = none) : fromStrRadix2 b1 b2 = none := by
  unfold fromStrRadix2
  split_ifs with h
  · exact h2
  · simp [h1]

/-- C2 counterexample: "FFzzzzzz" is an 8-character theme color string
containing non-hex characters, yet parse_color yields opaque red rather
than opaque black, because each two-byte component falls back
individually (0 for r, g, b and 255 for alpha). Likewise "FF" followed
by two two-byte Cyrillic letters and "FF" is 8 bytes long, passes the
length guard, and parses to opaque red although it has only 6
characters, none of the middle ones hex. -/
theorem parse_color_not_black_on_partial_hex :
    parse_color "FFzzzzzz" = some { r := 255, g := 0, b := 0, a := 255 } ∧
    parse_color "FFzzzzzz" ≠ some { r := 0, g := 0, b := 0, a := 255 } ∧
    parse_color "FFааFF" = some { r := 255, g := 0, b := 0, a := 255 } := by
  refine ⟨by decide, by decide, by decide⟩

/-- C2 amended: parse_color falls back to opaque black exactly when the
trimmed string (all leading '#' bytes removed) does not have UTF-8 byte
length 8, or when it is 8 bytes long, sliceable at character boundaries,
and no byte is a hex digit, so that every two-byte component fails (r, g,
b fall back to 0 and alpha to 255). An 8-byte string with some
well-formed components keeps those components, and an 8-byte string
whose slice offsets hit the inside of a multi-byte character makes the
Rust code panic (modelled as none). -/
theorem parse_color_fallback_black (hex : String) :
    ((utf8Enc (trimHash hex)).length ≠ 8 →
      parse_color hex = some { r := 0, g := 0, b := 0, a := 255 }) ∧
    ((utf8Enc (trimHash hex)).length = 8 →
      (isCharBoundary (trimHash hex) 2 && isCharBoundary (trimHash hex) 4 &&
        isCharBoundary (trimHash hex) 6) = true →
      (∀ b ∈ utf8Enc (trimHash hex), hexDigitByteVal b = none) →
      parse_color hex = some { r := 0, g := 0, b := 0, a := 255 }) := by
  constructor
  · intro h
    unfold parse_color
    rw [if_pos h]
  · intro hlen hb hall
    unfold parse_color
    rw [if_neg (not_not_intro hlen), if_pos hb]
    have hc : ∀ i, i < 8 → hexDigitByteVal ((utf8Enc (trimHash hex)).getD i 0) = none := by
      intro i hi
      apply hall
      have hi' : i < (utf8Enc (trimHash hex)).length := by omega
      rw [List.getD_eq_getElem _ _ hi']
      exact List.getElem_mem hi'
    rw [fromStrRadix2_none (hc 0 (by omega)) (hc 1 (by omega)),
        fromStrRadix2_none (hc 2 (by omega)) (hc 3 (by omega)),
        fromStrRadix2_none (hc 4 (by omega)) (hc 5 (by omega)),
        fromStrRadix2_none (hc 6 (by omega)) (hc 7 (by omega))]
    rfl

/-- Witness for C2 amended: a wrong-length string and a fully non-hex
8-byte string both fall back to opaque black. -/
theorem parse_color_fallback_black_witness :
    parse_color "12345" = some { r := 0, g := 0, b := 0, a := 255 } ∧
    parse_color "zzzzzzzz" = some { r := 0, g := 0, b := 0, a := 255 } :=
  ⟨(parse_color_fallback_black "12345").1 (by decide),
   (parse_color_fallback_black "zzzzzzzz").2 (by decide) (by decide) (by decide)⟩

/-! ## The pruning loop is a filter (C7) -/

theorem markRemove_shift {α : Type} (remove : α → Bool) (l : List α) (n : Nat) :
    markRemove remove l (n + 1) = (markRemove remove l n).map (· + 1) := by
  induction l generalizing n with
  | nil => rfl
  | cons x xs ih =>
    unfold markRemove
    by_cases h : remove x
    · simp [h, ih]
    · simp [h, ih]

theorem eraseMarks_map_succ {α : Type} (a : α) (l : List α) (marks : List Nat) :
    eraseMarks (a :: l) (marks.map (· + 1)) = a :: eraseMarks l marks := by
  induction marks with
  | nil => rfl
  | cons i ms ih =>
    unfold eraseMarks at *
    simp only [List.map_cons, List.foldr_cons]
    rw [ih]
    rfl

theorem pruneLoop_eq_filter {α : Type} (remove : α → Bool) (l : List α) :
    eraseMarks l (markRemove remove l 0) = l.filter fun x => !remove x := by
  induction l with
  | nil => rfl
  | cons x xs ih =>
    unfold markRemove
    by_cases h : remove x
    · rw [if_pos h, markRemove_shift]
      show (eraseMarks (x :: xs) ((markRemove remove xs 0).map (· + 1))).eraseIdx 0 = _
      rw [eraseMarks_map_succ, ih]
      simp [List.filter_cons, h]
    · rw [if_neg h, markRemove_shift, eraseMarks_map_succ, ih]
      simp [List.filter_cons, h]

/-- C7: group-policy pruning equals filtering the index list by the
per-row decision in which the whitelist runs strictly first; hence a row
failing the whitelist is dropped whatever the blacklist says, and the
surviving indices keep their relative order (the pruned list is a
sublist of the unpruned one). -/
theorem prune_whitelist_first (wl : Option (List String))
    (regexes : List (String → Bool)) (entries : List Entry) (filtered : List Nat) :
    pruneFiltered wl regexes entries filtered =
      filtered.filter (fun idx => !entryRemove wl regexes (getEntry entries idx)) ∧
    List.Sublist (pruneFiltered wl regexes entries filtered) filtered ∧
    (∀ idx ∈ filtered, wlFail wl (getEntry entries idx) = true →
      idx ∉ pruneFiltered wl regexes entries filtered) := by
  have heq : pruneFiltered wl regexes entries filtered =
      filtered.filter (fun idx => !entryRemove wl regexes (getEntry entries idx)) :=
    pruneLoop_eq_filter (fun idx => entryRemove wl regexes (getEntry entries idx)) filtered
  refine ⟨heq, ?_, ?_⟩
  · rw [heq]
    exact List.filter_sublist _
  · intro idx _ hfail hcontra
    rw [heq] at hcontra
    have hkeep := (List.mem_filter.mp hcontra).2
    simp [entryRemove, hfail] at hkeep

/-- Witness for C7: Beta (index 1) fails the whitelist Al even though the
blacklist would keep everything, so index 1 is pruned. -/
theorem prune_whitelist_first_witness :
    1 ∉ pruneFiltered (some ["Al"]) [fun _ => false] demoEntries [0, 1] :=
  (prune_whitelist_first (some ["Al"]) [fun _ => false] demoEntries [0, 1]).2.2
    1 (by decide) (by decide)

/-! ## Empty-query ranking (C5) -/

theorem emptyQueryCmp_ne_gt (entries : List Entry) (usage : String → Nat) (a b : Nat) :
    emptyQueryCmp entries usage a b ≠ .gt ↔ emptyKeyLE entries usage a b := by
  unfold emptyQueryCmp emptyKeyLE
  cases hcnt : linCmp (usage (getEntry entries b).id) (usage (getEntry entries a).id) with
  | lt =>
    rw [linCmp_eq_lt] at hcnt
    simp only [Ordering.then]
    constructor
    · intro _
      exact Or.inl hcnt
    · intro _
      decide
  | eq =>
    rw [linCmp_eq_eq] at hcnt
    simp only [Ordering.then]
    constructor
    · intro h
      exact Or.inr ⟨hcnt.symm, h⟩
    · rintro (hlt | ⟨_, h⟩)
      · exact absurd hcnt (ne_of_lt hlt)
      · exact h
  | gt =>
    rw [linCmp_eq_gt] at hcnt
    simp only [Ordering.then]
    constructor
    · intro h
      exact absurd rfl h
    · rintro (hlt | ⟨heq, _⟩)
      · exact absurd hlt (asymm hcnt)
      · exact absurd heq (ne_of_lt hcnt)

theorem emptyKeyLE_total (entries : List Entry) (usage : String → Nat) (a b : Nat) :
    emptyKeyLE entries usage a b ∨ emptyKeyLE entries usage b a := by
  unfold emptyKeyLE
  rcases lt_trichotomy (usage (getEntry entries a).id) (usage (getEntry entries b).id)
    with h | h | h
  · exact Or.inr (Or.inl h)
  · rcases charListCmp_le_total (getEntry entries a).name.toList
      (getEntry entries b).name.toList with hs | hs
    · exact Or.inl (Or.inr ⟨h, hs⟩)
    · exact Or.inr (Or.inr ⟨h.symm, hs⟩)
  · exact Or.inl (Or.inl h)

theorem emptyKeyLE_trans (entries : List Entry) (usage : String → Nat) (a b c : Nat) :
    emptyKeyLE entries usage a b → emptyKeyLE entries usage b c →
      emptyKeyLE entries usage a c := by
  unfold emptyKeyLE
  rintro (h1 | ⟨h1e, h1s⟩) (h2 | ⟨h2e, h2s⟩)
  · exact Or.inl (by omega)
  · exact Or.inl (by omega)
  · exact Or.inl (by omega)
  · exact Or.inr ⟨by omega, charListCmp_le_trans _ _ _ h1s h2s⟩

theorem pair_sublist_range {a b n : Nat} (hab : a < b) (hbn : b < n) :
    List.Sublist [a, b] (List.range n) := by
  induction n with
  | zero => omega
  | succ n ih =>
    rw [List.range_succ]
    rcases Nat.lt_or_ge b n with h | h
    · exact (ih h).trans (List.sublist_append_left _ _)
    · have hbn' : b = n := by omega
      subst hbn'
      have h1 : List.Sublist [a] (List.range b) :=
        List.singleton_sublist.mpr (List.mem_range.mpr hab)
      exact List.Sublist.append h1 (List.Sublist.refl [b])

/-- C5: with an empty query the recomputed Filtered View (before pruning)
is all catalog indices — a permutation of range — sorted by usage count
descending then display name ascending, stably: rows with equal keys keep
their catalog order; and update_filter resets the cursor to 0. The spec
scenario Alpha (2 uses) / Beta (5 uses) yields view order Beta, Alpha. -/
theorem empty_query_view_sorted_stable :
    (∀ (entries : List Entry) (usage : String → Nat),
      (rankEmptyQuery entries usage).Perm (List.range entries.length) ∧
      (rankEmptyQuery entries usage).Pairwise (emptyKeyLE entries usage) ∧
      (∀ a b : Nat, a < b → b < entries.length →
        usage (getEntry entries a).id = usage (getEntry entries b).id →
        (getEntry entries a).name = (getEntry entries b).name →
        List.Sublist [a, b] (rankEmptyQuery entries usage)) ∧
      (∀ ms compileOk gc s, (update_filter ms compileOk usage gc s).selectedIndex = 0)) ∧
    rankEmptyQuery demoEntries demoUsage = [1, 0] := by
  constructor
  · intro entries usage
    haveI htot : IsTotal Nat (fun a b => emptyQueryCmp entries usage a b ≠ .gt) := ⟨by
      intro a b
      rw [emptyQueryCmp_ne_gt, emptyQueryCmp_ne_gt]
      exact emptyKeyLE_total entries usage a b⟩
    haveI htrans : IsTrans Nat (fun a b => emptyQueryCmp entries usage a b ≠ .gt) := ⟨by
      intro a b c h1 h2
      rw [emptyQueryCmp_ne_gt] at h1 h2 ⊢
      exact emptyKeyLE_trans entries usage a b c h1 h2⟩
    refine ⟨?_, ?_, ?_, ?_⟩
    · exact List.perm_insertionSort _ _
    · have hs := List.sorted_insertionSort (fun a b => emptyQueryCmp entries usage a b ≠ .gt)
        (List.range entries.length)
      exact List.Pairwise.imp (fun hab => (emptyQueryCmp_ne_gt entries usage _ _).mp hab) hs
    · intro a b hab hbn hcount hname
      show List.Sublist [a, b]
        ((List.range entries.length).insertionSort fun x y => emptyQueryCmp entries usage x y ≠ .gt)
      apply List.pair_sublist_insertionSort
      · show emptyQueryCmp entries usage a b ≠ .gt
        rw [emptyQueryCmp_ne_gt]
        refine Or.inr ⟨hcount, ?_⟩
        rw [hname]
        exact strCmp_self_ne_gt _
      · exact pair_sublist_range hab hbn
    · intro ms compileOk gc s
      rfl
  · decide

/-- Witness for C5: stability at a catalog with two rows whose keys are
equal — catalog order 0 before 1 survives the sort. -/
theorem empty_query_view_sorted_stable_witness :
    List.Sublist [0, 1] (rankEmptyQuery demoDupEntries demoUsage) :=
  (empty_query_view_sorted_stable.1 demoDupEntries demoUsage).2.2.1 0 1
    (by decide) (by decide) (by decide) (by decide)

/-! ## Query ranking (C6) -/

theorem scored_length (ms : String → String → Option Nat) (query : String)
    (usage : String → Nat) (entries : List Entry) :
    (boostEntries usage (match_entries ms query entries)).length = entries.length := by
  unfold boostEntries match_entries
  simp

theorem getEntry_scored (ms : String → String → Option Nat) (query : String)
    (usage : String → Nat) (entries : List Entry) {i : Nat} (hi : i < entries.length) :
    getEntry (boostEntries usage (match_entries ms query entries)) i =
      { getEntry entries i with score := finalScore ms query usage (getEntry entries i) } := by
  unfold boostEntries match_entries getEntry finalScore
  rw [List.getElem?_map, List.getElem?_map, List.getElem?_eq_getElem hi]
  simp only [Option.map_some', Option.getD_some]
  cases hms : ms query entries[i].name with
  | some s =>
    simp only [hms]
    by_cases hpos : (0 : Int) < (s : Int)
    · rw [if_pos hpos, if_pos hpos]
    · rw [if_neg hpos, if_neg hpos]
  | none =>
    simp only [hms]
    rw [if_neg (by omega : ¬ (0 : Int) < -1)]

theorem finalScore_pos_iff (ms : String → String → Option Nat) (query : String)
    (usage : String → Nat) (e : Entry) :
    0 < finalScore ms query usage e ↔ ∃ s, ms query e.name = some s ∧ 0 < s := by
  unfold finalScore
  cases hms : ms query e.name with
  | none =>
    show (0 < (-1 : Int)) ↔ ∃ s, (none : Option Nat) = some s ∧ 0 < s
    simp
  | some s =>
    show (0 < if 0 < (s : Int) then (s : Int) + (usage e.id : Int) * 100 else (s : Int)) ↔
      ∃ s', some s = some s' ∧ 0 < s'
    by_cases hpos : (0 : Int) < (s : Int)
    · rw [if_pos hpos]
      have hsn : 0 < s := by exact_mod_cast hpos
      have hnn : (0 : Int) ≤ (usage e.id : Int) * 100 := by positivity
      constructor
      · intro _
        exact ⟨s, rfl, hsn⟩
      · intro _
        omega
    · rw [if_neg hpos]
      constructor
      · intro hcon
        exact absurd hcon hpos
      · rintro ⟨s', hs', hp'⟩
        injection hs' with hss
        subst hss
        exact absurd (by exact_mod_cast hp') hpos

theorem queryCmp_ne_gt (entries : List Entry) (a b : Nat) :
    queryCmp entries a b ≠ .gt ↔
      (getEntry entries b).score ≤ (getEntry entries a).score := by
  unfold queryCmp
  exact linCmp_ne_gt

/-- C6: for every non-empty query, an index is kept in the Filtered View
iff its entry's fuzzy match score is strictly positive — so the usage
boost alone never admits a non-matching item; every kept entry carries
final score fuzzy + usage * 100; the view is ordered by final score
descending; and update_filter with a non-empty query dispatches to
exactly this computation (no-group case shown). -/
theorem query_view_positive_and_sorted
    (ms : String → String → Option Nat) (query : String) (usage : String → Nat)
    (entries : List Entry) (hq : query ≠ "") :
    (∀ i, i ∈ (rankQuery ms query usage entries).2 ↔
        i < entries.length ∧ ∃ s, ms query (getEntry entries i).name = some s ∧ 0 < s) ∧
    (∀ i s, i < entries.length → ms query (getEntry entries i).name = some s → 0 < s →
        (getEntry (rankQuery ms query usage entries).1 i).score =
          (s : Int) + (usage (getEntry entries i).id : Int) * 100) ∧
    (∀ i s, i < entries.length → ms query (getEntry entries i).name = some s → ¬ 0 < s →
        (getEntry (rankQuery ms query usage entries).1 i).score = (s : Int)) ∧
    (∀ i, i < entries.length → ms query (getEntry entries i).name = none →
        (getEntry (rankQuery ms query usage entries).1 i).score = -1) ∧
    ((rankQuery ms query usage entries).2).Pairwise
      (fun a b => (getEntry (rankQuery ms query usage entries).1 b).score ≤
        (getEntry (rankQuery ms query usage entries).1 a).score) ∧
    (∀ compileOk (s : RankState), s.query = query →
        update_filter ms compileOk usage none s =
          { s with entries := (rankQuery ms query usage s.entries).1,
                   filteredIndices := (rankQuery ms query usage s.entries).2,
                   selectedIndex := 0 }) := by
  refine ⟨?_, ?_, ?_, ?_, ?_, ?_⟩
  · intro i
    simp only [rankQuery, sortBy]
    rw [List.mem_insertionSort, List.mem_filter, List.mem_range, scored_length]
    constructor
    · rintro ⟨hi, hpos⟩
      refine ⟨hi, ?_⟩
      rw [← finalScore_pos_iff ms query usage (getEntry entries i)]
      have hp := of_decide_eq_true hpos
      rw [getEntry_scored ms query usage entries hi] at hp
      exact hp
    · rintro ⟨hi, hex⟩
      refine ⟨hi, ?_⟩
      apply decide_eq_true
      rw [getEntry_scored ms query usage entries hi]
      show 0 < finalScore ms query usage (getEntry entries i)
      rw [finalScore_pos_iff]
      exact hex
  · intro i s hi hms hs
    simp only [rankQuery]
    rw [getEntry_scored ms query usage entries hi]
    show finalScore ms query usage (getEntry entries i) = _
    unfold finalScore
    rw [hms]
    show (if 0 < (s : Int) then (s : Int) + (usage (getEntry entries i).id : Int) * 100
        else (s : Int)) = _
    rw [if_pos (by exact_mod_cast hs)]
  · intro i s hi hms hs
    simp only [rankQuery]
    rw [getEntry_scored ms query usage entries hi]
    show finalScore ms query usage (getEntry entries i) = _
    unfold finalScore
    rw [hms]
    show (if 0 < (s : Int) then (s : Int) + (usage (getEntry entries i).id : Int) * 100
        else (s : Int)) = _
    rw [if_neg (by exact_mod_cast hs)]
  · intro i hi hms
    simp only [rankQuery]
    rw [getEntry_scored ms query usage entries hi]
    show finalScore ms query usage (getEntry entries i) = _
    unfold finalScore
    rw [hms]
  · haveI : IsTotal Nat
        (fun a b => queryCmp (boostEntries usage (match_entries ms query entries)) a b ≠ .gt) := ⟨by
      intro a b
      rw [queryCmp_ne_gt, queryCmp_ne_gt]
      exact le_total _ _⟩
    haveI : IsTrans Nat
        (fun a b => queryCmp (boostEntries usage (match_entries ms query entries)) a b ≠ .gt) := ⟨by
      intro a b c h1 h2
      rw [queryCmp_ne_gt] at h1 h2 ⊢
      exact le_trans h2 h1⟩
    have hs := List.sorted_insertionSort
      (fun a b => queryCmp (boostEntries usage (match_entries ms query entries)) a b ≠ .gt)
      ((List.range (boostEntries usage (match_entries ms query entries)).length).filter
        fun i => 0 < (getEntry (boostEntries usage (match_entries ms query entries)) i).score)
    exact List.Pairwise.imp
      (fun hab => (queryCmp_ne_gt (boostEntries usage (match_entries ms query entries)) _ _).mp hab)
      hs
  · intro compileOk s hsq
    unfold update_filter
    rw [hsq, if_neg hq]

/-- Witness for C6: with the demo matcher and query alp, Alpha (index 0,
fuzzy score 10, 2 recorded uses) gets final score 10 + 2 * 100. -/
theorem query_view_positive_and_sorted_witness :
    (getEntry (rankQuery demoMatcher "alp" demoUsage demoEntries).1 0).score =
      (10 : Int) + (demoUsage (getEntry demoEntries 0).id : Int) * 100 :=
  (query_view_positive_and_sorted demoMatcher "alp" demoUsage demoEntries (by decide)).2.1
    0 10 (by decide) (by decide) (by decide)

/-! ## Ranking-pass frame (C9) -/

/-- C9: a ranking pass (update_filter with a non-empty query) modifies
only the score field of catalog entries: the catalog length is unchanged
and, position by position, the id, name, command, icon, group, container,
terminal and kind fields are unchanged; the query is untouched. Only
score, the Filtered View, and the cursor may change. -/
theorem ranking_pass_frame (ms : String → String → Option Nat)
    (compileOk : String → Option (String → Bool)) (usage : String → Nat)
    (gc : Option LaunchGroup) (s : RankState) (hq : s.query ≠ "") :
    (update_filter ms compileOk usage gc s).entries.length = s.entries.length ∧
    (update_filter ms compileOk usage gc s).query = s.query ∧
    (∀ i, i < s.entries.length →
      (getEntry (update_filter ms compileOk usage gc s).entries i).id =
          (getEntry s.entries i).id ∧
      (getEntry (update_filter ms compileOk usage gc s).entries i).name =
          (getEntry s.entries i).name ∧
      (getEntry (update_filter ms compileOk usage gc s).entries i).command =
          (getEntry s.entries i).command ∧
      (getEntry (update_filter ms compileOk usage gc s).entries i).icon =
          (getEntry s.entries i).icon ∧
      (getEntry (update_filter ms compileOk usage gc s).entries i).group =
          (getEntry s.entries i).group ∧
      (getEntry (update_filter ms compileOk usage gc s).entries i).isContainer =
          (getEntry s.entries i).isContainer ∧
      (getEntry (update_filter ms compileOk usage gc s).entries i).openInTerminal =
          (getEntry s.entries i).openInTerminal ∧
      (getEntry (update_filter ms compileOk usage gc s).entries i).entryType =
          (getEntry s.entries i).entryType) := by
  have hent : (update_filter ms compileOk usage gc s).entries =
      boostEntries usage (match_entries ms s.query s.entries) := by
    unfold update_filter rankQuery
    rw [if_neg hq]
  refine ⟨?_, rfl, ?_⟩
  · rw [hent, scored_length]
  · intro i hi
    rw [hent, getEntry_scored ms s.query usage s.entries hi]
    exact ⟨rfl, rfl, rfl, rfl, rfl, rfl, rfl, rfl⟩

/-- Witness for C9 at the demo state with query alp. -/
theorem ranking_pass_frame_witness :
    (update_filter demoMatcher (fun _ => none) demoUsage none demoState).entries.length =
      demoState.entries.length ∧
    (getEntry (update_filter demoMatcher (fun _ => none) demoUsage none demoState).entries 0).name =
      (getEntry demoState.entries 0).name :=
  ⟨(ranking_pass_frame demoMatcher (fun _ => none) demoUsage none demoState (by decide)).1,
   ((ranking_pass_frame demoMatcher (fun _ => none) demoUsage none demoState (by decide)).2.2
      0 (by decide)).2.1⟩

/-! ## Icon cache (C8) -/

theorem processRequests_same_name_no_jobs {β : Type} :
    ∀ (reqs : List (String × Nat)) (s : IconCacheState β) (name : String),
      (∀ r ∈ reqs, r.1 = name) →
      (s.pending.contains name = true ∨ (s.cache.lookup name).isSome = true) →
      (processRequests s reqs).2 = []
  | [], _, _, _, _ => rfl
  | (n, size) :: rest, s, name, hall, h => by
    have hn : n = name := hall (n, size) (List.mem_cons_self _ _)
    subst hn
    have hall' : ∀ r ∈ rest, r.1 = n := fun r hr => hall r (List.mem_cons_of_mem _ hr)
    unfold processRequests IconCacheState.get
    cases hl : s.cache.lookup n with
    | some cached =>
      simp only [hl]
      rw [processRequests_same_name_no_jobs rest s n hall' h]
      rfl
    | none =>
      simp only [hl]
      have hpend : s.pending.contains n = true := by
        rcases h with h | h
        · exact h
        · rw [hl] at h
          simp at h
      rw [if_pos hpend]
      rw [processRequests_same_name_no_jobs rest s n hall' h]
      rfl

/-- C8: the cache keeps at most one outstanding load job per icon name.
Any non-empty burst of get calls for one name with no intervening insert,
starting uncached and non-pending, sends exactly one job to the loader —
the first call's — and after insert(name, none) a further get returns the
cached absent marker immediately, changing nothing and sending no job. -/
theorem icon_cache_single_inflight :
    (∀ (β : Type) (s : IconCacheState β) (name : String) (reqs : List (String × Nat)),
      (∀ r ∈ reqs, r.1 = name) → reqs ≠ [] →
      s.cache.lookup name = none → s.pending.contains name = false →
      (processRequests s reqs).2 = [(name, (reqs.headD (name, 0)).2)]) ∧
    (∀ (β : Type) (s : IconCacheState β) (name : String) (size : Nat),
      (s.insert name none).get name size = (none, s.insert name none, [])) := by
  constructor
  · intro β s name reqs hall hne hc hp
    obtain ⟨⟨n, size⟩, rest, rfl⟩ : ∃ a l, reqs = a :: l := by
      cases reqs with
      | nil => exact absurd rfl hne
      | cons a l => exact ⟨a, l, rfl⟩
    have hn : n = name := hall (n, size) (List.mem_cons_self _ _)
    subst hn
    unfold processRequests IconCacheState.get
    simp only [hc]
    rw [if_neg (by rw [hp]; decide)]
    have hrest : (processRequests { s with pending := n :: s.pending } rest).2 = [] := by
      apply processRequests_same_name_no_jobs rest _ n
      · exact fun r hr => hall r (List.mem_cons_of_mem _ hr)
      · left
        simp [List.contains_cons]
    simp [hrest]
  · intro β s name size
    unfold IconCacheState.get IconCacheState.insert
    simp [List.lookup]

/-- Witness for C8: the spec scenario — foo requested twice before any
delivery yields exactly one job, and after deliver(foo, none) a further
request returns the absent marker with no new job. -/
theorem icon_cache_single_inflight_witness :
    (processRequests (⟨[], []⟩ : IconCacheState Unit) [("foo", 22), ("foo", 22)]).2 =
      [("foo", 22)] ∧
    (IconCacheState.insert (⟨[], []⟩ : IconCacheState Unit) "foo" none).get "foo" 22 =
      (none, IconCacheState.insert (⟨[], []⟩ : IconCacheState Unit) "foo" none, []) := by
  constructor
  · have h := icon_cache_single_inflight.1 Unit ⟨[], []⟩ "foo" [("foo", 22), ("foo", 22)]
      (by decide) (by decide) rfl rfl
    simpa using h
  · exact icon_cache_single_inflight.2 Unit ⟨[], []⟩ "foo" 22

/-! ## Executor (C10) -/

/-- C10: when the invocation command splits into zero whitespace tokens
and no terminal wrapper applies, execute increments the usage history and
returns Ok(()) without attempting to spawn any process: the action trace
is exactly the usage increment (which comes first) and the early return
is taken. -/
theorem execute_empty_command_ok (entry : Entry) (config : Config) (activeGroup : String)
    (hsplit : splitWhitespace entry.command = [])
    (hterm : entry.openInTerminal = false ∨ config.general.terminal = none) :
    execute entry config activeGroup = ([.incrementUsage entry.id], true) := by
  unfold execute
  rcases hterm with h | h
  · simp [h, hsplit]
  · by_cases hot : entry.openInTerminal
    · simp [hot, h, hsplit]
    · simp [hot, hsplit]

/-- Witness for C10: a whitespace-only command with no terminal wrapper
yields only the usage increment and the early Ok return. -/
theorem execute_empty_command_ok_witness :
    execute demoEntryEmptyCmd demoConfig "default" = ([.incrementUsage "e"], true) :=
  execute_empty_command_ok demoEntryEmptyCmd demoConfig "default" (by decide) (Or.inl rfl)
